import Mathlib

/-!
# `gh pr comments`: the comment feed of `command/pr_comments.go`

A shallow embedding of `prComments` (src/command/pr_comments.go) and the
properties of the feed it builds, sorts and prints.

The function is sequential glue around collaborators that live outside the
file: context and repository resolution, three API calls, the terminal-size
probe, the colour helpers, `humanize.Time` and `markdown.Render`.  They are
taken as the fields of `World`; the embedding follows the control flow of the
source line by line and records what a run does in a `Run`: the collaborator
calls it made, the value of the local slice `comments` after the sort, the
chunks written to standard output, and how the run ended.
-/

namespace PrComments

/-! ## Data model -/

/-- A `time.Time` as the API decoder produces it: seconds and nanoseconds of the
instant, and the zone offset the value was written with.  Go's comparisons
(`Before`, `Equal`) look at the instant only.  Values decoded from JSON carry no
monotonic clock reading, so the monotonic branch of `Before` is not modelled. -/
structure Time where
  sec : Int
  nsec : Nat
  zone : Int
  deriving DecidableEq, Repr

/-- Go `func (t Time) Before(u Time) bool` for wall-clock values:
`ts < us || ts == us && t.nsec() < u.nsec()`. -/
def Time.Before (t u : Time) : Bool :=
  decide (t.sec < u.sec) || (decide (t.sec = u.sec) && decide (t.nsec < u.nsec))

/-- Go `func (t Time) Equal(u Time) bool` for wall-clock values: same instant,
whatever the zone. -/
def Time.Equal (t u : Time) : Bool :=
  decide (t.sec = u.sec) && decide (t.nsec = u.nsec)

/-- The part of `api.User` that `prComments` reads. -/
structure api.User where
  Login : String
  deriving DecidableEq, Repr

/-- An element of the slices returned by `api.PullRequestComments` and
`api.IssueComments`, with the fields `prComments` reads (lines 69-75, 79-85).
`User` is a pointer in the source (`*c.User`), so it may be nil. -/
structure api.Comment where
  User : Option api.User
  HTMLURL : String
  Body : String
  CreatedAt : Time
  UpdatedAt : Time
  deriving DecidableEq, Repr

/-- Source lines 18-26: `type comment struct`. -/
structure comment where
  URL : String
  HTMLURL : String
  Body : String
  User : api.User
  CreatedAt : Time
  UpdatedAt : Time
  deriving DecidableEq, Repr

/-- The part of `prPayload.CurrentPR` that `prComments` reads. -/
structure api.PullRequest where
  Number : Int
  URL : String
  deriving DecidableEq, Repr

/-- The part of the value returned by `api.PullRequests` that `prComments` reads. -/
structure api.PullRequestsPayload where
  CurrentPR : api.PullRequest
  deriving DecidableEq, Repr

/-- Handle of the API client returned by `apiClientForContext`. -/
structure api.Client where
  id : Nat
  deriving DecidableEq, Repr

/-- The base repository returned by `determineBaseRepo`. -/
structure Repo where
  fullName : String
  deriving DecidableEq, Repr

/-- A Go `error` value, identified with the text of its `Error()` method. -/
abbrev GoError := String

/-- The collaborators of `prComments`.  A Go call returning `(v, err)` whose
value is only used when `err == nil` is an `Except`; the two calls whose values
are in scope next to a non-nil error (`prSelectorForCurrentBranch`,
`terminal.GetSize`) return the whole tuple.  `humanizeTime k t` is the k-th call
of `humanize.Time` in the print loop (it reads the clock at every call). -/
structure World where
  apiClientForContext : Except GoError api.Client
  determineBaseRepo : api.Client → Except GoError Repo
  prSelectorForCurrentBranch : Repo → Int × String × Option GoError
  PullRequests : api.Client → Repo → Int → String → String → Except GoError api.PullRequestsPayload
  PullRequestComments : api.Client → Repo → Int → Except GoError (List api.Comment)
  IssueComments : api.Client → Repo → Int → Except GoError (List api.Comment)
  GetSize : Int × Int × Option GoError
  Bold : String → String
  Gray : String → String
  Blue : String → String
  humanizeTime : Nat → Time → String
  Render : String → Int → Int → String

/-- A collaborator call made by a run, with the arguments that matter. -/
inductive Call where
  | contextForCommand
  | apiClientForContext
  | determineBaseRepo
  | prSelectorForCurrentBranch
  | PullRequests (number : Int) (headRef : String) (user : String)
  | PullRequestComments (number : Int)
  | IssueComments (number : Int)
  | GetSize
  | Render (body : String) (width : Int) (leftPad : Int)
  deriving DecidableEq, Repr

/-- How a run of `prComments` ends: it returns its `error` result (`none` is
`nil`), or it panics on a nil pointer. -/
inductive Result where
  | returned (err : Option GoError)
  | panicked
  deriving DecidableEq, Repr

/-- What a run of `prComments` did: the collaborator calls in order, the local
slice `comments` after line 90 when the run got that far, the chunks written to
standard output (one per `Printf`/`Println`), and the result. -/
structure Run where
  calls : List Call
  comments : Option (List comment)
  stdout : List String
  result : Result
  deriving DecidableEq, Repr

/-! ## `sort.SliceStable` -/

/-- Inner loop of Go's insertion sort, `for j := i; j > a && less(j, j-1); j--
{ swap(j, j-1) }`: the element `x` at index `i` moves left past every
neighbour it is strictly less than.  The sorted prefix is held nearest
neighbour first. -/
def sort.sink {α : Type} (less : α → α → Bool) (x : α) : List α → List α
  | [] => [x]
  | y :: ys => if less x y then y :: sort.sink less x ys else x :: y :: ys

/-- Model of `sort.SliceStable(x, less)`: "sorts the slice x using the provided
less function, keeping equal elements in their original order".  It is the
library's insertion sort run over the whole slice (the library runs it on blocks
of 20 elements and merges the blocks with a stable in-place merge).  For a less
function that is a strict weak order the result of a stable sort is unique (see
`sort.stable_sort_unique`), so the choice of algorithm cannot be observed. -/
def sort.SliceStable {α : Type} (less : α → α → Bool) (x : List α) : List α :=
  (x.foldl (fun sortedRev c => sort.sink less c sortedRev) []).reverse

/-! ## `prComments` -/

/-- The struct literal of lines 69-75 and 79-85 once `*c.User` has been read. -/
def comment.ofAPI (c : api.Comment) (u : api.User) : comment :=
  { User := u, URL := c.HTMLURL, CreatedAt := c.CreatedAt, UpdatedAt := c.UpdatedAt,
    Body := c.Body, HTMLURL := "" }

/-- The element appended for `c`; `none` when `c.User` is nil and the
dereference `*c.User` panics. -/
def convert (c : api.Comment) : Option comment :=
  match c.User with
  | none => none
  | some u => some (comment.ofAPI c u)

/-- One `for _, c := range cs { comments = append(comments, comment{...}) }`
loop (lines 68-76, 78-86), starting from the slice `comments`. -/
def appendAll (comments : List comment) : List api.Comment → Option (List comment)
  | [] => some comments
  | c :: cs =>
    match convert c with
    | none => none
    | some k => appendAll (comments ++ [k]) cs

/-- Lines 66-86: the empty slice, then the two loops. -/
def collect (prComments issueComments : List api.Comment) : Option (List comment) :=
  match appendAll [] prComments with
  | none => none
  | some comments => appendAll comments issueComments

/-- The less function of lines 88-90. -/
def createdBefore (a b : comment) : Bool := a.CreatedAt.Before b.CreatedAt

/-- Lines 92-95: `w, _, err := terminal.GetSize(...)`, `if err != nil { w = 80 }`. -/
def termWidth (size : Int × Int × Option GoError) : Int :=
  match size with
  | (w, _, err) => if err.isSome then 80 else w

/-- Line 97: `fmt.Printf("Pull Request #%d Comments\n\n", number)`. -/
def header (number : Int) : String :=
  "Pull Request #" ++ toString number ++ " Comments\n\n"

/-- Line 100: `fmt.Printf("No Comments.\n\n")`. -/
def noComments : String := "No Comments.\n\n"

/-- Lines 105-112 for the k-th comment of the loop: the `Sprintf` of
`"@%s %s %s\n%s\n"` and the newline `Println` adds. -/
def block (W : World) (w : Int) (k : Nat) (c : comment) : String :=
  ("@" ++ W.Bold c.User.Login ++ " " ++ W.Gray (W.humanizeTime k c.CreatedAt) ++ " "
    ++ W.Blue c.URL ++ "\n" ++ W.Render c.Body w 0 ++ "\n") ++ "\n"

/-- The chunks of lines 103-113, starting at loop index `k`. -/
def blocksFrom (W : World) (w : Int) : Nat → List comment → List String
  | _, [] => []
  | k, c :: cs => block W w k c :: blocksFrom W w (k + 1) cs

/-- Line 115: `fmt.Printf("Pull Request URL: %s\n", utils.Blue(url))`. -/
def footer (W : World) (url : String) : String :=
  "Pull Request URL: " ++ W.Blue url ++ "\n"

/-- Lines 97-115: everything a run prints. -/
def printed (W : World) (w : Int) (pr : api.PullRequest) (comments : List comment) :
    List String :=
  [header pr.Number]
    ++ (if comments.length = 0 then [noComments] else [])
    ++ blocksFrom W w 0 comments
    ++ [footer W pr.URL]

/-- Value of the locals after a successful line 54. -/
structure Resolved where
  apiClient : api.Client
  baseRepo : Repo
  prPayload : api.PullRequestsPayload
  deriving DecidableEq, Repr

/-- Lines 33-54: context, API client, base repository, pull request selector
and lookup.  Returns the calls made and either the error `prComments` returns
or the locals in scope at line 56. -/
def resolve (W : World) : List Call × Except GoError Resolved :=
  match W.apiClientForContext with
  | .error err => ([.contextForCommand, .apiClientForContext], .error err)
  | .ok apiClient =>
    match W.determineBaseRepo apiClient with
    | .error err =>
      ([.contextForCommand, .apiClientForContext, .determineBaseRepo], .error err)
    | .ok baseRepo =>
      match W.prSelectorForCurrentBranch baseRepo with
      | (currentPRNumber, currentPRHeadRef, err) =>
        if err.isSome && err != some "git: not on any branch" then
          ([.contextForCommand, .apiClientForContext, .determineBaseRepo,
            .prSelectorForCurrentBranch],
           .error ("could not query for pull request for current branch: " ++ err.getD ""))
        else
          match W.PullRequests apiClient baseRepo currentPRNumber currentPRHeadRef "@me" with
          | .error err =>
            ([.contextForCommand, .apiClientForContext, .determineBaseRepo,
              .prSelectorForCurrentBranch,
              .PullRequests currentPRNumber currentPRHeadRef "@me"], .error err)
          | .ok prPayload =>
            ([.contextForCommand, .apiClientForContext, .determineBaseRepo,
              .prSelectorForCurrentBranch,
              .PullRequests currentPRNumber currentPRHeadRef "@me"],
             .ok { apiClient := apiClient, baseRepo := baseRepo, prPayload := prPayload })

/-- Value of the locals after a successful line 64. -/
structure Fetched where
  prPayload : api.PullRequestsPayload
  prComments : List api.Comment
  issueComments : List api.Comment
  deriving DecidableEq, Repr

/-- Lines 33-64: `resolve`, then the two fetches, review comments first. -/
def fetch (W : World) : List Call × Except GoError Fetched :=
  match resolve W with
  | (calls, .error err) => (calls, .error err)
  | (calls, .ok r) =>
    match W.PullRequestComments r.apiClient r.baseRepo r.prPayload.CurrentPR.Number with
    | .error err =>
      (calls ++ [.PullRequestComments r.prPayload.CurrentPR.Number],
       .error ("failed to get PR review comments: " ++ err))
    | .ok prComments =>
      match W.IssueComments r.apiClient r.baseRepo r.prPayload.CurrentPR.Number with
      | .error err =>
        (calls ++ [.PullRequestComments r.prPayload.CurrentPR.Number,
                   .IssueComments r.prPayload.CurrentPR.Number],
         .error ("failed to get issues comments: " ++ err))
      | .ok issueComments =>
        (calls ++ [.PullRequestComments r.prPayload.CurrentPR.Number,
                   .IssueComments r.prPayload.CurrentPR.Number],
         .ok { prPayload := r.prPayload, prComments := prComments,
               issueComments := issueComments })

/-- Source lines 32-118: `func prComments(cmd *cobra.Command, args []string) error`. -/
def prComments (W : World) : Run :=
  match fetch W with
  | (calls, .error err) =>
    { calls := calls, comments := none, stdout := [], result := .returned (some err) }
  | (calls, .ok f) =>
    match collect f.prComments f.issueComments with
    | none => { calls := calls, comments := none, stdout := [], result := .panicked }
    | some comments =>
      let comments := sort.SliceStable createdBefore comments
      let w := termWidth W.GetSize
      { calls := calls ++ [.GetSize] ++ comments.map (fun c => Call.Render c.Body w 0),
        comments := some comments,
        stdout := printed W w f.prPayload.CurrentPR comments,
        result := .returned none }

/-- Two elements are equal for `less` when neither is less than the other. -/
def sort.same {α : Type} (less : α → α → Bool) (t x : α) : Bool := !less t x && !less x t

/-! ## Sample runs -/

/-- The instant `T0 + d` of the samples. -/
def sample.at (d : Int) : Time := { sec := 100 + d, nsec := 0, zone := 0 }

/-- A record by `login` created `d` seconds after `T0`. -/
def sample.record (login body : String) (d : Int) : api.Comment :=
  { User := some { Login := login }, HTMLURL := "u/" ++ login, Body := body,
    CreatedAt := sample.at d, UpdatedAt := sample.at d }

/-- The pull request the lookup of the samples finds. -/
def sample.pr : api.PullRequestsPayload := { CurrentPR := { Number := 7, URL := "u/7" } }

/-- A world in which context, client and repository resolve, the selector
returns `sel`, the lookup finds pull request 7, the two fetches return `reviews`
and `issues`, and the terminal probe returns `size`.  The colour helpers leave
the text alone, every time is shown as "now" and the renderer shows the width
and left pad it was given. -/
def sample.world (sel : Int × String × Option GoError)
    (reviews issues : Except GoError (List api.Comment))
    (size : Int × Int × Option GoError) : World :=
  { apiClientForContext := .ok { id := 1 }
    determineBaseRepo := fun _ => .ok { fullName := "o/r" }
    prSelectorForCurrentBranch := fun _ => sel
    PullRequests := fun _ _ _ _ _ => .ok sample.pr
    PullRequestComments := fun _ _ _ => reviews
    IssueComments := fun _ _ _ => issues
    GetSize := size
    Bold := fun s => s
    Gray := fun s => s
    Blue := fun s => s
    humanizeTime := fun _ _ => "now"
    Render := fun body w pad => body ++ " (" ++ toString w ++ "," ++ toString pad ++ ")" }

/-- Review comments `[a@T0]`, issue comments `[b@T0+1]`, a terminal 120 columns wide. -/
def sample.twoComments : World :=
  sample.world (7, "feature", none) (.ok [sample.record "a" "first" 0])
    (.ok [sample.record "b" "second" 1]) (120, 40, none)

/-- A review comment and an issue comment created at the same instant, after an
earlier issue comment. -/
def sample.tie : World :=
  sample.world (7, "feature", none) (.ok [sample.record "a" "review" 5])
    (.ok [sample.record "b" "issue" 5, sample.record "c" "early" 0]) (120, 40, none)

/-- What lines 33-64 leave in scope in the run on `sample.tie`. -/
def sample.tieFetched : Fetched :=
  { prPayload := sample.pr, prComments := [sample.record "a" "review" 5],
    issueComments := [sample.record "b" "issue" 5, sample.record "c" "early" 0] }

/-- A pull request without comments. -/
def sample.quiet : World :=
  sample.world (7, "feature", none) (.ok []) (.ok []) (120, 40, none)

/-- The terminal probe fails. -/
def sample.noTerminal : World :=
  sample.world (7, "feature", none) (.ok [sample.record "a" "first" 0]) (.ok [])
    (-1, -1, some "inappropriate ioctl for device")

/-- The terminal probe succeeds and reports a window of 0 columns. -/
def sample.zeroColumns : World :=
  sample.world (7, "feature", none) (.ok [sample.record "a" "first" 0]) (.ok [])
    (0, 0, none)

/-- The selector fails because HEAD is detached. -/
def sample.detached : World :=
  sample.world (0, "", some "git: not on any branch") (.ok [sample.record "a" "first" 0])
    (.ok []) (120, 40, none)

/-- The selector fails for another reason. -/
def sample.noRemote : World :=
  sample.world (0, "", some "no remote") (.ok []) (.ok []) (120, 40, none)

/-- The review-comment fetch fails. -/
def sample.reviewsDown : World :=
  sample.world (7, "feature", none) (.error "HTTP 502") (.ok []) (120, 40, none)

/-- The issue-comment fetch fails. -/
def sample.issuesDown : World :=
  sample.world (7, "feature", none) (.ok [sample.record "a" "first" 0]) (.error "HTTP 502")
    (120, 40, none)

/-! ## Facts about `time.Time` comparisons -/

theorem Time.Before_asymm (t u : Time) (h : t.Before u = true) : u.Before t = false := by
  simp only [Time.Before, Bool.or_eq_true, Bool.and_eq_true, decide_eq_true_eq] at h
  simp only [Time.Before, Bool.or_eq_false_iff, Bool.and_eq_false_iff, decide_eq_false_iff_not]
  omega

theorem Time.Before_negTrans (a b c : Time) (hab : a.Before b = false)
    (hbc : b.Before c = false) : a.Before c = false := by
  simp only [Time.Before, Bool.or_eq_false_iff, Bool.and_eq_false_iff,
    decide_eq_false_iff_not] at hab hbc ⊢
  omega

theorem Time.Equal_iff_not_Before (t u : Time) :
    t.Equal u = true ↔ t.Before u = false ∧ u.Before t = false := by
  simp only [Time.Before, Time.Equal, Bool.or_eq_false_iff, Bool.and_eq_false_iff,
    decide_eq_false_iff_not, Bool.and_eq_true, decide_eq_true_eq]
  omega

theorem Time.Before_of_Equal (t a b : Time) (ha : t.Equal a = true) (hb : t.Equal b = true) :
    a.Before b = false := by
  simp only [Time.Equal, Bool.and_eq_true, decide_eq_true_eq] at ha hb
  simp only [Time.Before, Bool.or_eq_false_iff, Bool.and_eq_false_iff, decide_eq_false_iff_not]
  omega

/-! ## Facts about the sort -/

section SortFacts

variable {α : Type} (less : α → α → Bool)

theorem sort.sink_perm (x : α) (l : List α) : (sort.sink less x l).Perm (x :: l) := by
  induction l with
  | nil => exact List.Perm.refl _
  | cons y ys ih =>
    unfold sort.sink
    split
    · exact (List.Perm.cons y ih).trans (List.Perm.swap x y ys)
    · exact List.Perm.refl _

theorem sort.foldl_sink_perm (xs acc : List α) :
    (xs.foldl (fun sortedRev c => sort.sink less c sortedRev) acc).Perm (xs ++ acc) := by
  induction xs generalizing acc with
  | nil => exact List.Perm.refl _
  | cons x xs ih =>
    simp only [List.foldl_cons, List.cons_append]
    exact ((ih _).trans ((sort.sink_perm less x acc).append_left xs)).trans List.perm_middle

/-- The sorted slice is a permutation of the slice. -/
theorem sort.SliceStable_perm (l : List α) : (sort.SliceStable less l).Perm l := by
  unfold sort.SliceStable
  refine (List.reverse_perm _).trans ?_
  simpa using sort.foldl_sink_perm less l []

theorem sort.sink_sorted (asym : ∀ a b, less a b = true → less b a = false)
    (ntrans : ∀ a b c, less a b = false → less b c = false → less a c = false)
    (x : α) (l : List α) (hl : l.Pairwise (fun a b => less a b = false)) :
    (sort.sink less x l).Pairwise (fun a b => less a b = false) := by
  induction l with
  | nil => simp [sort.sink]
  | cons y ys ih =>
    rw [List.pairwise_cons] at hl
    unfold sort.sink
    split
    · rename_i hxy
      rw [List.pairwise_cons]
      refine ⟨fun z hz => ?_, ih hl.2⟩
      rcases List.mem_cons.mp ((sort.sink_perm less x ys).mem_iff.mp hz) with rfl | hz
      · exact asym _ _ hxy
      · exact hl.1 z hz
    · rename_i hxy
      have hxy : less x y = false := by simpa using hxy
      rw [List.pairwise_cons, List.pairwise_cons]
      refine ⟨fun z hz => ?_, hl⟩
      rcases List.mem_cons.mp hz with rfl | hz
      · exact hxy
      · exact ntrans x y z hxy (hl.1 z hz)

theorem sort.foldl_sink_sorted (asym : ∀ a b, less a b = true → less b a = false)
    (ntrans : ∀ a b c, less a b = false → less b c = false → less a c = false)
    (xs acc : List α) (hacc : acc.Pairwise (fun a b => less a b = false)) :
    (xs.foldl (fun sortedRev c => sort.sink less c sortedRev) acc).Pairwise
      (fun a b => less a b = false) := by
  induction xs generalizing acc with
  | nil => exact hacc
  | cons x xs ih => exact ih _ (sort.sink_sorted less asym ntrans x acc hacc)

/-- For a less function that is asymmetric and negatively transitive, no
element of the sorted slice is less than an element before it. -/
theorem sort.SliceStable_sorted (asym : ∀ a b, less a b = true → less b a = false)
    (ntrans : ∀ a b c, less a b = false → less b c = false → less a c = false)
    (l : List α) : (sort.SliceStable less l).Pairwise (fun a b => less b a = false) := by
  unfold sort.SliceStable
  rw [List.pairwise_reverse]
  exact sort.foldl_sink_sorted less asym ntrans l [] List.Pairwise.nil

theorem sort.sink_filter (p : α → Bool)
    (hp : ∀ a b, p a = true → p b = true → less a b = false) (x : α) (l : List α) :
    (sort.sink less x l).filter p = (x :: l).filter p := by
  induction l with
  | nil => rfl
  | cons y ys ih =>
    unfold sort.sink
    split
    · rename_i hxy
      by_cases hx : p x = true
      · have hy : p y = false := by
          by_contra hy
          have := hp x y hx (by simpa using hy)
          simp [this] at hxy
        simp [List.filter_cons, hy, ih, hx]
      · simp [List.filter_cons, ih, hx]
    · rfl

theorem sort.foldl_sink_filter (p : α → Bool)
    (hp : ∀ a b, p a = true → p b = true → less a b = false) (xs acc : List α) :
    (xs.foldl (fun sortedRev c => sort.sink less c sortedRev) acc).filter p
      = (xs.reverse ++ acc).filter p := by
  induction xs generalizing acc with
  | nil => rfl
  | cons x xs ih =>
    simp only [List.foldl_cons, List.reverse_cons, List.append_assoc, List.singleton_append]
    rw [ih, List.filter_append, sort.sink_filter less p hp, ← List.filter_append]

/-- Stability: the elements of any class of mutually incomparable elements keep
their order. -/
theorem sort.SliceStable_filter (p : α → Bool)
    (hp : ∀ a b, p a = true → p b = true → less a b = false) (l : List α) :
    (sort.SliceStable less l).filter p = l.filter p := by
  unfold sort.SliceStable
  rw [List.filter_reverse, sort.foldl_sink_filter less p hp]
  simp [List.filter_reverse]

/-- A sorted list is determined by its classes of equal elements: two lists in
which no element is less than an earlier one, and which list the members of
every class in the same order, are the same list. -/
theorem sort.sorted_ext (irrefl : ∀ a, less a a = false) :
    ∀ (l₁ l₂ : List α), l₁.Pairwise (fun a b => less b a = false) →
      l₂.Pairwise (fun a b => less b a = false) →
      (∀ t, l₁.filter (sort.same less t) = l₂.filter (sort.same less t)) → l₁ = l₂
  | [], [], _, _, _ => rfl
  | [], b :: l₂, _, _, hf => by
    have h := hf b
    simp [sort.same, irrefl] at h
  | a :: l₁, [], _, _, hf => by
    have h := hf a
    simp [sort.same, irrefl] at h
  | a :: l₁, b :: l₂, h₁, h₂, hf => by
    rw [List.pairwise_cons] at h₁ h₂
    have haa : sort.same less a a = true := by simp [sort.same, irrefl]
    have hbb : sort.same less b b = true := by simp [sort.same, irrefl]
    by_cases hab : sort.same less a b = true
    · have hhead : a = b := by
        have h := hf a
        simp only [List.filter_cons, haa, hab, if_true] at h
        exact (List.cons.inj h).1
      subst hhead
      have htail : ∀ t, l₁.filter (sort.same less t) = l₂.filter (sort.same less t) := by
        intro t
        have h := hf t
        by_cases hta : sort.same less t a = true
        · simp only [List.filter_cons, hta, if_true] at h
          exact (List.cons.inj h).2
        · simpa only [List.filter_cons, hta, if_false] using h
      rw [sort.sorted_ext irrefl l₁ l₂ h₁.2 h₂.2 htail]
    · exfalso
      have hne : a ≠ b := fun h => hab (h ▸ haa)
      have ha : a ∈ (b :: l₂).filter (sort.same less a) := by
        rw [← hf a]; simp [List.filter_cons, haa]
      have hb : b ∈ (a :: l₁).filter (sort.same less b) := by
        rw [hf b]; simp [List.filter_cons, hbb]
      have ha2 : a ∈ l₂ := by
        rcases List.mem_cons.mp (List.mem_filter.mp ha).1 with h | h
        · exact absurd h hne
        · exact h
      have hb1 : b ∈ l₁ := by
        rcases List.mem_cons.mp (List.mem_filter.mp hb).1 with h | h
        · exact absurd h.symm hne
        · exact h
      have h1 : less a b = false := h₂.1 a ha2
      have h2 : less b a = false := h₁.1 b hb1
      exact hab (by simp [sort.same, h1, h2])

/-- The result of a stable sort is unique: whatever list is sorted for `less`
and keeps every class of equal elements of `l` in its order is the list
`sort.SliceStable less l`. -/
theorem sort.stable_sort_unique (asym : ∀ a b, less a b = true → less b a = false)
    (ntrans : ∀ a b c, less a b = false → less b c = false → less a c = false)
    (l out : List α) (hsorted : out.Pairwise (fun a b => less b a = false))
    (hstable : ∀ t, out.filter (sort.same less t) = l.filter (sort.same less t)) :
    out = sort.SliceStable less l := by
  have irrefl : ∀ a, less a a = false := by
    intro a
    by_contra h
    have h' : less a a = true := by simpa using h
    simp [asym a a h'] at h'
  refine sort.sorted_ext less irrefl out _ hsorted
    (sort.SliceStable_sorted less asym ntrans l) (fun t => ?_)
  rw [hstable t, sort.SliceStable_filter less (sort.same less t) ?_ l]
  intro a b ha hb
  simp only [sort.same, Bool.and_eq_true, Bool.not_eq_true'] at ha hb
  by_contra hab
  have hab' : less a b = true := by simpa using hab
  have h1 : less a t = false := ha.2
  have h2 : less t b = false := hb.1
  rw [ntrans a t b h1 h2] at hab'
  exact Bool.false_ne_true hab'

theorem sort.sink_map {β : Type} (f : β → α) (x : β) (l : List β) :
    (sort.sink (fun a b => less (f a) (f b)) x l).map f = sort.sink less (f x) (l.map f) := by
  induction l with
  | nil => rfl
  | cons y ys ih =>
    simp only [sort.sink, List.map_cons]
    split
    · simp [ih]
    · rfl

theorem sort.foldl_sink_map {β : Type} (f : β → α) (l acc : List β) :
    (l.foldl (fun sortedRev c => sort.sink (fun a b => less (f a) (f b)) c sortedRev) acc).map f
      = (l.map f).foldl (fun sortedRev c => sort.sink less c sortedRev) (acc.map f) := by
  induction l generalizing acc with
  | nil => rfl
  | cons x xs ih =>
    simp only [List.foldl_cons, List.map_cons]
    rw [ih, sort.sink_map]

/-- The sort only looks at its elements through `less`: sorting by a key and
then taking the key is sorting the keys. -/
theorem sort.SliceStable_map {β : Type} (f : β → α) (l : List β) :
    (sort.SliceStable (fun a b => less (f a) (f b)) l).map f
      = sort.SliceStable less (l.map f) := by
  unfold sort.SliceStable
  rw [List.map_reverse, sort.foldl_sink_map]
  rfl

/-- Stability by positions: the sorted slice lists the positions of the slice
in some order, each position once, and of two elements of the sorted slice that
are equal for `less` the one that comes first was first in the slice. -/
theorem sort.SliceStable_positions (asym : ∀ a b, less a b = true → less b a = false)
    (ntrans : ∀ a b c, less a b = false → less b c = false → less a c = false)
    (l : List α) :
    ∃ order : List Nat,
      order.Perm (List.range l.length) ∧
      (sort.SliceStable less l).map some = order.map (fun p => l[p]?) ∧
      ∀ (i j p q : Nat) (a b : α), i < j →
        order[i]? = some p → order[j]? = some q →
        (sort.SliceStable less l)[i]? = some a → (sort.SliceStable less l)[j]? = some b →
        less a b = false → less b a = false → p < q := by
  have irrefl : ∀ a, less a a = false := by
    intro a
    by_contra h
    have h' : less a a = true := by simpa using h
    simp [asym a a h'] at h'
  let less' : Nat × α → Nat × α → Bool := fun x y => less x.2 y.2
  have hS : (sort.SliceStable less' l.enum).map Prod.snd = sort.SliceStable less l := by
    rw [sort.SliceStable_map less Prod.snd l.enum, List.enum_map_snd]
  have hmem : ∀ x ∈ sort.SliceStable less' l.enum, l[x.1]? = some x.2 := fun x hx =>
    List.mem_enum_iff_getElem?.mp ((sort.SliceStable_perm less' l.enum).mem_iff.mp hx)
  refine ⟨(sort.SliceStable less' l.enum).map Prod.fst, ?_, ?_, ?_⟩
  · have h := (sort.SliceStable_perm less' l.enum).map Prod.fst
    rwa [List.enum_map_fst] at h
  · rw [← hS, List.map_map, List.map_map]
    exact List.map_congr_left (fun x hx => (hmem x hx).symm)
  · intro i j p q a b hij hp hq ha hb hab hba
    rw [← hS] at ha hb
    rw [List.getElem?_map] at hp hq ha hb
    cases hi : (sort.SliceStable less' l.enum)[i]? with
    | none => rw [hi] at hp; simp at hp
    | some x =>
      cases hj : (sort.SliceStable less' l.enum)[j]? with
      | none => rw [hj] at hq; simp at hq
      | some y =>
        rw [hi] at hp ha
        rw [hj] at hq hb
        simp only [Option.map_some', Option.some.injEq] at hp hq ha hb
        obtain ⟨hil, hix⟩ := List.getElem?_eq_some.mp hi
        obtain ⟨hjl, hjy⟩ := List.getElem?_eq_some.mp hj
        have hclass : ∀ u v : Nat × α, sort.same less a u.2 = true →
            sort.same less a v.2 = true → less' u v = false := by
          intro u v hu hv
          simp only [sort.same, Bool.and_eq_true, Bool.not_eq_true'] at hu hv
          exact ntrans u.2 a v.2 hu.2 hv.1
        have hfilter := sort.SliceStable_filter less' (fun u => sort.same less a u.2)
          hclass l.enum
        have henum : l.enum.Pairwise (fun u v => u.1 < v.1) := by
          have h := List.pairwise_lt_range l.length
          rw [← List.enum_map_fst l, List.pairwise_map] at h
          exact h
        have hpw : ((sort.SliceStable less' l.enum).filter
            (fun u => sort.same less a u.2)).Pairwise (fun u v => u.1 < v.1) := by
          rw [hfilter]
          exact henum.sublist (List.filter_sublist _)
        have hpw' : ((sort.SliceStable less' l.enum).filter
            (fun u => decide (sort.same less a u.2 = true))).Pairwise
              (fun u v => u.1 < v.1) := by
          simpa only [Bool.decide_eq_true] using hpw
        rw [List.pairwise_filter, List.pairwise_iff_getElem] at hpw'
        have hlt := hpw' i j hil hjl hij
        rw [hix, hjy] at hlt
        rw [← hp, ← hq]
        refine hlt ?_ ?_
        · rw [ha]; simp [sort.same, irrefl]
        · rw [hb]; simp [sort.same, hab, hba]

end SortFacts

/-! ## Facts about the two loops -/

theorem appendAll_of_map (comments : List comment) (cs : List api.Comment) (ks : List comment)
    (h : cs.map convert = ks.map some) : appendAll comments cs = some (comments ++ ks) := by
  induction cs generalizing comments ks with
  | nil =>
    cases ks with
    | nil => simp [appendAll]
    | cons k ks => simp at h
  | cons c cs ih =>
    cases ks with
    | nil => simp at h
    | cons k ks =>
      simp only [List.map_cons, List.cons.injEq] at h
      simp only [appendAll, h.1]
      rw [ih (comments ++ [k]) ks h.2]
      simp

theorem exists_converted (cs : List api.Comment) (hu : ∀ c ∈ cs, c.User ≠ none) :
    ∃ ks : List comment, cs.map convert = ks.map some := by
  induction cs with
  | nil => exact ⟨[], rfl⟩
  | cons c cs ih =>
    obtain ⟨ks, hks⟩ := ih (fun d hd => hu d (List.mem_cons_of_mem _ hd))
    have hc := hu c (List.mem_cons_self _ _)
    cases hcu : c.User with
    | none => exact absurd hcu hc
    | some u =>
      refine ⟨comment.ofAPI c u :: ks, ?_⟩
      simp [convert, hcu, hks]

theorem collect_of_map (rs cs : List api.Comment) (reviews issues : List comment)
    (hr : rs.map convert = reviews.map some) (hi : cs.map convert = issues.map some) :
    collect rs cs = some (reviews ++ issues) := by
  unfold collect
  rw [appendAll_of_map [] rs reviews hr]
  simpa using appendAll_of_map reviews cs issues hi

theorem appendAll_of_nil_user (comments : List comment) (cs : List api.Comment)
    (c : api.Comment) (hc : c ∈ cs) (hn : c.User = none) : appendAll comments cs = none := by
  induction cs generalizing comments with
  | nil => simp at hc
  | cons d ds ih =>
    unfold appendAll
    cases hd : convert d with
    | none => rfl
    | some k =>
      rcases List.mem_cons.mp hc with h | h
      · subst h
        simp [convert, hn] at hd
      · exact ih (comments ++ [k]) h

/-- A record without a user, in either list, stops the loops of lines 68-86. -/
theorem collect_of_nil_user (rs cs : List api.Comment) (c : api.Comment)
    (hc : c ∈ rs ++ cs) (hn : c.User = none) : collect rs cs = none := by
  unfold collect
  cases hr : appendAll [] rs with
  | none => rfl
  | some comments =>
    rcases List.mem_append.mp hc with h | h
    · rw [appendAll_of_nil_user [] rs c h hn] at hr
      exact absurd hr (by simp)
    · exact appendAll_of_nil_user comments cs c h hn

/-! ## Facts about `createdBefore` -/

theorem createdBefore_asymm (a b : comment) (h : createdBefore a b = true) :
    createdBefore b a = false :=
  Time.Before_asymm _ _ h

theorem createdBefore_negTrans (a b c : comment) (hab : createdBefore a b = false)
    (hbc : createdBefore b c = false) : createdBefore a c = false :=
  Time.Before_negTrans _ _ _ hab hbc

/-! ## The shape of a run -/

theorem prComments_of_fetch_error (W : World) (calls : List Call) (err : GoError)
    (hf : fetch W = (calls, .error err)) :
    prComments W
      = { calls := calls, comments := none, stdout := [], result := .returned (some err) } := by
  simp only [prComments, hf]

theorem prComments_of_nil_user (W : World) (calls : List Call) (f : Fetched)
    (hf : fetch W = (calls, .ok f)) (hc : collect f.prComments f.issueComments = none) :
    prComments W = { calls := calls, comments := none, stdout := [], result := .panicked } := by
  simp only [prComments, hf, hc]

theorem prComments_of_collect (W : World) (calls : List Call) (f : Fetched)
    (cs : List comment) (hf : fetch W = (calls, .ok f))
    (hc : collect f.prComments f.issueComments = some cs) :
    prComments W
      = { calls := calls ++ [.GetSize]
            ++ (sort.SliceStable createdBefore cs).map
                (fun c => Call.Render c.Body (termWidth W.GetSize) 0),
          comments := some (sort.SliceStable createdBefore cs),
          stdout := printed W (termWidth W.GetSize) f.prPayload.CurrentPR
            (sort.SliceStable createdBefore cs),
          result := .returned none } := by
  simp only [prComments, hf, hc]

/-- When a fetched record has no user the run panics at `*c.User`: nothing is
printed and no feed is built. -/
theorem prComments_panics_of_nil_user (W : World) (calls : List Call) (f : Fetched)
    (c : api.Comment) (hf : fetch W = (calls, .ok f))
    (hc : c ∈ f.prComments ++ f.issueComments) (hn : c.User = none) :
    prComments W = { calls := calls, comments := none, stdout := [], result := .panicked } :=
  prComments_of_nil_user W calls f hf (collect_of_nil_user _ _ c hc hn)

/-! ## The feed -/

/-- C1: whatever two lists the fetches return (every record carrying a user, so
that the feed is built), the slice `comments` after the sort is non-decreasing
by creation time: for positions i < j, the comment at j is not created before
the comment at i. -/
theorem comments_sorted_by_creation (W : World) (calls : List Call) (f : Fetched)
    (hf : fetch W = (calls, .ok f))
    (hu : ∀ c ∈ f.prComments ++ f.issueComments, c.User ≠ none) :
    ∃ feed, (prComments W).comments = some feed ∧
      ∀ (i j : Nat) (hij : i < j) (hj : j < feed.length),
        (feed.get ⟨j, hj⟩).CreatedAt.Before
          (feed.get ⟨i, Nat.lt_trans hij hj⟩).CreatedAt = false := by
  obtain ⟨reviews, hr⟩ := exists_converted f.prComments
    (fun c hc => hu c (List.mem_append_left _ hc))
  obtain ⟨issues, hi⟩ := exists_converted f.issueComments
    (fun c hc => hu c (List.mem_append_right _ hc))
  have hc := collect_of_map _ _ _ _ hr hi
  refine ⟨sort.SliceStable createdBefore (reviews ++ issues), ?_, ?_⟩
  · rw [prComments_of_collect W calls f _ hf hc]
  · intro i j hij hj
    have hs := sort.SliceStable_sorted createdBefore createdBefore_asymm
      createdBefore_negTrans (reviews ++ issues)
    exact List.pairwise_iff_get.mp hs ⟨i, Nat.lt_trans hij hj⟩ ⟨j, hj⟩ hij

/-- The run on `sample.tie`, whose fetched comments are not in creation order. -/
theorem comments_sorted_by_creation_witness :
    fetch sample.tie = ((fetch sample.tie).1, .ok sample.tieFetched) ∧
    (∀ c ∈ sample.tieFetched.prComments ++ sample.tieFetched.issueComments, c.User ≠ none) ∧
    ∃ feed, (prComments sample.tie).comments = some feed ∧
      ∀ (i j : Nat) (hij : i < j) (hj : j < feed.length),
        (feed.get ⟨j, hj⟩).CreatedAt.Before
          (feed.get ⟨i, Nat.lt_trans hij hj⟩).CreatedAt = false :=
  ⟨rfl, by decide,
   comments_sorted_by_creation sample.tie (fetch sample.tie).1 sample.tieFetched rfl
     (by decide)⟩

/-- C2: the sort is stable with respect to review comments followed by issue
comments.  For every instant t the comments created at t appear in the feed in
the order they have in that concatenation: the review comments created at t,
then the issue comments created at t.  By positions: the feed lists the
positions of the concatenation, each once (`order`), and of two feed comments
with equal creation times the earlier in the feed has the smaller position in
the concatenation.  So a review comment comes before an issue comment created
at the same instant. -/
theorem comments_sort_stable (W : World) (calls : List Call) (f : Fetched)
    (hf : fetch W = (calls, .ok f))
    (hu : ∀ c ∈ f.prComments ++ f.issueComments, c.User ≠ none) :
    ∃ (reviews issues feed : List comment) (order : List Nat),
      f.prComments.map convert = reviews.map some ∧
      f.issueComments.map convert = issues.map some ∧
      (prComments W).comments = some feed ∧
      (∀ t : Time, feed.filter (fun c => t.Equal c.CreatedAt)
          = reviews.filter (fun c => t.Equal c.CreatedAt)
            ++ issues.filter (fun c => t.Equal c.CreatedAt)) ∧
      order.Perm (List.range (reviews ++ issues).length) ∧
      feed.map some = order.map (fun p => (reviews ++ issues)[p]?) ∧
      (∀ (i j p q : Nat) (a b : comment), i < j →
          order[i]? = some p → order[j]? = some q →
          feed[i]? = some a → feed[j]? = some b →
          a.CreatedAt.Equal b.CreatedAt = true → p < q) ∧
      (∀ a ∈ reviews, ∀ b ∈ issues, a.CreatedAt.Equal b.CreatedAt = true →
          List.Sublist [a, b] feed) := by
  obtain ⟨reviews, hr⟩ := exists_converted f.prComments
    (fun c hc => hu c (List.mem_append_left _ hc))
  obtain ⟨issues, hi⟩ := exists_converted f.issueComments
    (fun c hc => hu c (List.mem_append_right _ hc))
  have hc := collect_of_map _ _ _ _ hr hi
  have hstable : ∀ t : Time,
      (sort.SliceStable createdBefore (reviews ++ issues)).filter (fun c => t.Equal c.CreatedAt)
        = (reviews ++ issues).filter (fun c => t.Equal c.CreatedAt) := fun t =>
    sort.SliceStable_filter createdBefore _
      (fun a b ha hb => Time.Before_of_Equal t _ _ ha hb) _
  obtain ⟨order, hperm, hmap, hpos⟩ := sort.SliceStable_positions createdBefore
    createdBefore_asymm createdBefore_negTrans (reviews ++ issues)
  refine ⟨reviews, issues, sort.SliceStable createdBefore (reviews ++ issues), order, hr, hi,
    ?_, ?_, hperm, hmap, ?_, ?_⟩
  · rw [prComments_of_collect W calls f _ hf hc]
  · intro t
    rw [hstable t, List.filter_append]
  · intro i j p q a b hij hp hq ha hb hab
    have h := (Time.Equal_iff_not_Before a.CreatedAt b.CreatedAt).mp hab
    exact hpos i j p q a b hij hp hq ha hb h.1 h.2
  · intro a ha b hb hab
    have haa : a.CreatedAt.Equal a.CreatedAt = true := by simp [Time.Equal]
    have h1 : List.Sublist [a] reviews := List.singleton_sublist.mpr ha
    have h2 : List.Sublist [b] issues := List.singleton_sublist.mpr hb
    have hsub : List.Sublist [a, b] (reviews ++ issues) := by simpa using h1.append h2
    have h3 := hsub.filter (fun c => a.CreatedAt.Equal c.CreatedAt)
    rw [← hstable a.CreatedAt] at h3
    have h4 : List.filter (fun c => a.CreatedAt.Equal c.CreatedAt) [a, b] = [a, b] := by
      simp [List.filter_cons, haa, hab]
    rw [h4] at h3
    exact h3.trans (List.filter_sublist _)

/-- The run on `sample.tie`: the review comment and the issue comment created at
the same instant come out in that order, after the earlier issue comment. -/
theorem comments_sort_stable_witness :
    (prComments sample.tie).comments
      = some [comment.ofAPI (sample.record "c" "early" 0) { Login := "c" },
              comment.ofAPI (sample.record "a" "review" 5) { Login := "a" },
              comment.ofAPI (sample.record "b" "issue" 5) { Login := "b" }] ∧
    ∃ (reviews issues feed : List comment) (order : List Nat),
      sample.tieFetched.prComments.map convert = reviews.map some ∧
      sample.tieFetched.issueComments.map convert = issues.map some ∧
      (prComments sample.tie).comments = some feed ∧
      (∀ t : Time, feed.filter (fun c => t.Equal c.CreatedAt)
          = reviews.filter (fun c => t.Equal c.CreatedAt)
            ++ issues.filter (fun c => t.Equal c.CreatedAt)) ∧
      order.Perm (List.range (reviews ++ issues).length) ∧
      feed.map some = order.map (fun p => (reviews ++ issues)[p]?) ∧
      (∀ (i j p q : Nat) (a b : comment), i < j →
          order[i]? = some p → order[j]? = some q →
          feed[i]? = some a → feed[j]? = some b →
          a.CreatedAt.Equal b.CreatedAt = true → p < q) ∧
      (∀ a ∈ reviews, ∀ b ∈ issues, a.CreatedAt.Equal b.CreatedAt = true →
          List.Sublist [a, b] feed) :=
  ⟨by decide,
   comments_sort_stable sample.tie (fetch sample.tie).1 sample.tieFetched rfl (by decide)⟩

/-- C3: the feed is a permutation of the projections of the review comments
followed by those of the issue comments, where the projection of a record takes
the author from the record's user, the URL from its HTML URL, and copies body,
creation and update times; so the feed has as many comments as the two inputs
together. -/
theorem comments_perm_of_inputs (W : World) (calls : List Call) (f : Fetched)
    (hf : fetch W = (calls, .ok f))
    (hu : ∀ c ∈ f.prComments ++ f.issueComments, c.User ≠ none) :
    ∃ reviews issues feed,
      f.prComments.map convert = reviews.map some ∧
      f.issueComments.map convert = issues.map some ∧
      (∀ (c : api.Comment) (u : api.User), c.User = some u →
        convert c = some { User := u, URL := c.HTMLURL, Body := c.Body,
                           CreatedAt := c.CreatedAt, UpdatedAt := c.UpdatedAt,
                           HTMLURL := "" }) ∧
      (prComments W).comments = some feed ∧
      feed.Perm (reviews ++ issues) ∧
      feed.length = f.prComments.length + f.issueComments.length := by
  obtain ⟨reviews, hr⟩ := exists_converted f.prComments
    (fun c hc => hu c (List.mem_append_left _ hc))
  obtain ⟨issues, hi⟩ := exists_converted f.issueComments
    (fun c hc => hu c (List.mem_append_right _ hc))
  have hc := collect_of_map _ _ _ _ hr hi
  have hperm := sort.SliceStable_perm createdBefore (reviews ++ issues)
  refine ⟨reviews, issues, sort.SliceStable createdBefore (reviews ++ issues), hr, hi, ?_,
    ?_, hperm, ?_⟩
  · intro c u hcu
    simp [convert, hcu, comment.ofAPI]
  · rw [prComments_of_collect W calls f _ hf hc]
  · have h1 := congrArg List.length hr
    have h2 := congrArg List.length hi
    simp only [List.length_map] at h1 h2
    rw [hperm.length_eq, List.length_append, h1, h2]

/-- The run on `sample.tie`: one review comment and two issue comments give a
feed of three comments. -/
theorem comments_perm_of_inputs_witness :
    ∃ reviews issues feed,
      sample.tieFetched.prComments.map convert = reviews.map some ∧
      sample.tieFetched.issueComments.map convert = issues.map some ∧
      (∀ (c : api.Comment) (u : api.User), c.User = some u →
        convert c = some { User := u, URL := c.HTMLURL, Body := c.Body,
                           CreatedAt := c.CreatedAt, UpdatedAt := c.UpdatedAt,
                           HTMLURL := "" }) ∧
      (prComments sample.tie).comments = some feed ∧
      feed.Perm (reviews ++ issues) ∧
      feed.length = sample.tieFetched.prComments.length
        + sample.tieFetched.issueComments.length :=
  comments_perm_of_inputs sample.tie (fetch sample.tie).1 sample.tieFetched rfl (by decide)

/-! ## Facts about the calls and the outcome of a run -/

theorem resolve_calls (W : World) (c : Call) (hc : c ∈ (resolve W).1) :
    c = .contextForCommand ∨ c = .apiClientForContext ∨ c = .determineBaseRepo
      ∨ c = .prSelectorForCurrentBranch ∨ ∃ n r u, c = .PullRequests n r u := by
  unfold resolve at hc
  repeat' split at hc
  all_goals simp only [List.mem_cons, List.mem_singleton, List.not_mem_nil, or_false] at hc
  all_goals aesop

theorem fetch_calls (W : World) (c : Call) (hc : c ∈ (fetch W).1) :
    c ≠ .GetSize ∧ ∀ b w p, c ≠ .Render b w p := by
  have hres : ∀ d ∈ (resolve W).1, d ≠ .GetSize ∧ ∀ b w p, d ≠ .Render b w p := by
    intro d hd
    rcases resolve_calls W d hd with h | h | h | h | ⟨n, r, u, h⟩ <;> simp [h]
  unfold fetch at hc
  split at hc
  · rename_i calls err heq
    have hcalls : calls = (resolve W).1 := by rw [heq]
    subst hcalls
    exact hres c hc
  · rename_i calls r heq
    have hcalls : calls = (resolve W).1 := by rw [heq]
    subst hcalls
    repeat' split at hc
    all_goals simp only [List.mem_append, List.mem_cons, List.mem_singleton,
      List.not_mem_nil, or_false] at hc
    all_goals rcases hc with h | h
    all_goals first
      | exact hres c h
      | (rcases h with h | h <;> simp [h])
      | simp [h]

theorem resolve_prefix_fetch (W : World) : List.IsPrefix (resolve W).1 (fetch W).1 := by
  unfold fetch
  split
  · rename_i calls err heq
    rw [heq]
  · rename_i calls r heq
    rw [heq]
    repeat' split
    all_goals exact List.prefix_append _ _

theorem fetch_prefix_calls (W : World) : List.IsPrefix (fetch W).1 (prComments W).calls := by
  rcases hfe : fetch W with ⟨calls, e | f⟩
  · rw [prComments_of_fetch_error W calls e hfe]
  · cases hc : collect f.prComments f.issueComments with
    | none =>
      rw [prComments_of_nil_user W calls f hfe hc]
    | some cs =>
      rw [prComments_of_collect W calls f cs hfe hc, List.append_assoc]
      exact List.prefix_append _ _

theorem prComments_success (W : World) (hs : (prComments W).result = .returned none) :
    ∃ calls f cs, fetch W = (calls, .ok f)
      ∧ collect f.prComments f.issueComments = some cs := by
  rcases hfe : fetch W with ⟨calls, e | f⟩
  · rw [prComments_of_fetch_error W calls e hfe] at hs
    simp at hs
  · cases hc : collect f.prComments f.issueComments with
    | none =>
      rw [prComments_of_nil_user W calls f hfe hc] at hs
      simp at hs
    | some cs => exact ⟨calls, f, cs, rfl, hc⟩

theorem prComments_failure (W : World) (e : GoError)
    (hs : (prComments W).result = .returned (some e)) :
    ∃ calls, fetch W = (calls, .error e) := by
  rcases hfe : fetch W with ⟨calls, e' | f⟩
  · rw [prComments_of_fetch_error W calls e' hfe] at hs
    simp only [Result.returned.injEq, Option.some.injEq] at hs
    exact ⟨calls, by rw [hs]⟩
  · cases hc : collect f.prComments f.issueComments with
    | none =>
      rw [prComments_of_nil_user W calls f hfe hc] at hs
      simp at hs
    | some cs =>
      rw [prComments_of_collect W calls f cs hfe hc] at hs
      simp at hs

theorem prComments_feed (W : World) (feed : List comment)
    (hs : (prComments W).comments = some feed) :
    ∃ calls f cs, fetch W = (calls, .ok f)
      ∧ collect f.prComments f.issueComments = some cs
      ∧ feed = sort.SliceStable createdBefore cs := by
  rcases hfe : fetch W with ⟨calls, e | f⟩
  · rw [prComments_of_fetch_error W calls e hfe] at hs
    simp at hs
  · cases hc : collect f.prComments f.issueComments with
    | none =>
      rw [prComments_of_nil_user W calls f hfe hc] at hs
      simp at hs
    | some cs =>
      rw [prComments_of_collect W calls f cs hfe hc] at hs
      simp only [Option.some.injEq] at hs
      exact ⟨calls, f, cs, rfl, hc, hs.symm⟩

/-! ## Facts about the printed chunks -/

theorem blocksFrom_length (W : World) (w : Int) (k : Nat) (cs : List comment) :
    (blocksFrom W w k cs).length = cs.length := by
  induction cs generalizing k with
  | nil => rfl
  | cons c cs ih => simp [blocksFrom, ih]

theorem blocksFrom_get (W : World) (w : Int) (k : Nat) (cs : List comment) (i : Nat)
    (hi : i < cs.length) (hb : i < (blocksFrom W w k cs).length) :
    (blocksFrom W w k cs).get ⟨i, hb⟩ = block W w (k + i) (cs.get ⟨i, hi⟩) := by
  induction cs generalizing k i with
  | nil => simp at hi
  | cons c cs ih =>
    cases i with
    | zero => simp [blocksFrom]
    | succ i =>
      simp only [List.length_cons, Nat.add_lt_add_iff_right] at hi
      have hb' : i < (blocksFrom W w (k + 1) cs).length := by
        rw [blocksFrom_length]; exact hi
      have h := ih (k + 1) i hi hb'
      simp only [blocksFrom, List.get_eq_getElem, List.getElem_cons_succ] at h ⊢
      rw [h]
      congr 1
      omega

theorem mem_blocksFrom (W : World) (w : Int) (k : Nat) (cs : List comment) (x : String)
    (hx : x ∈ blocksFrom W w k cs) : ∃ j c, x = block W w j c := by
  induction cs generalizing k with
  | nil => simp [blocksFrom] at hx
  | cons c cs ih =>
    simp only [blocksFrom, List.mem_cons] at hx
    rcases hx with h | h
    · exact ⟨k, c, h⟩
    · exact ih (k + 1) h

theorem blocksFrom_selector (W : World) (sel : Repo → Int × String × Option GoError)
    (w : Int) (k : Nat) (cs : List comment) :
    blocksFrom { W with prSelectorForCurrentBranch := sel } w k cs = blocksFrom W w k cs := by
  induction cs generalizing k with
  | nil => rfl
  | cons c cs ih =>
    simp only [blocksFrom, ih]
    rfl

/-- What a run prints does not depend on the selector. -/
theorem printed_selector (W : World) (sel : Repo → Int × String × Option GoError)
    (w : Int) (pr : api.PullRequest) (cs : List comment) :
    printed { W with prSelectorForCurrentBranch := sel } w pr cs = printed W w pr cs := by
  simp only [printed, blocksFrom_selector]
  rfl

theorem block_ne_noComments (W : World) (w : Int) (k : Nat) (c : comment) :
    block W w k c ≠ noComments := by
  intro h
  have := congrArg String.data h
  simp [block, noComments] at this

theorem block_ne_header (W : World) (w : Int) (k : Nat) (c : comment) (n : Int) :
    block W w k c ≠ header n := by
  intro h
  have := congrArg String.data h
  simp [block, header] at this

theorem block_ne_footer (W : World) (w : Int) (k : Nat) (c : comment) (url : String) :
    block W w k c ≠ footer W url := by
  intro h
  have := congrArg String.data h
  simp [block, footer] at this

theorem header_ne_noComments (n : Int) : header n ≠ noComments := by
  intro h
  have := congrArg String.data h
  simp [header, noComments] at this

theorem footer_ne_noComments (W : World) (url : String) : footer W url ≠ noComments := by
  intro h
  have := congrArg String.data h
  simp [footer, noComments] at this

/-! ## The printed output -/

/-- C4: with both fetched lists empty the feed is empty and the output is the
header, one "No Comments." notice and the footer, with no comment block; with a
non-empty feed no "No Comments." notice is written. -/
theorem no_comments_notice (W : World) (calls : List Call) (f : Fetched)
    (hf : fetch W = (calls, .ok f)) :
    (f.prComments = [] → f.issueComments = [] →
      (prComments W).comments = some [] ∧
      (prComments W).stdout
        = [header f.prPayload.CurrentPR.Number, "No Comments.\n\n",
           footer W f.prPayload.CurrentPR.URL] ∧
      (prComments W).stdout.count "No Comments.\n\n" = 1 ∧
      ∀ w k c, block W w k c ∉ (prComments W).stdout) ∧
    (∀ feed, (prComments W).comments = some feed → feed ≠ [] →
      "No Comments.\n\n" ∉ (prComments W).stdout) := by
  constructor
  · intro h1 h2
    have hc : collect f.prComments f.issueComments = some [] := by rw [h1, h2]; rfl
    have hsort : sort.SliceStable createdBefore ([] : List comment) = [] := rfl
    rw [prComments_of_collect W calls f [] hf hc, hsort]
    have hn := header_ne_noComments f.prPayload.CurrentPR.Number
    have hm := footer_ne_noComments W f.prPayload.CurrentPR.URL
    simp only [noComments] at hn hm
    refine ⟨rfl, rfl, ?_, ?_⟩
    · simp [printed, blocksFrom, noComments, List.count_cons, hn, hm]
    · intro w k c hmem
      simp only [printed, blocksFrom, List.length_nil, if_true, List.append_nil,
        List.cons_append, List.nil_append, List.mem_cons, List.mem_singleton,
        List.not_mem_nil, or_false] at hmem
      rcases hmem with h | h | h
      · exact block_ne_header W w k c _ h
      · exact block_ne_noComments W w k c h
      · exact block_ne_footer W w k c _ h
  · intro feed hfeed hne hmem
    obtain ⟨calls', f', cs, hf', hc, hcs⟩ := prComments_feed W feed hfeed
    rw [prComments_of_collect W calls' f' cs hf' hc, ← hcs] at hmem
    have hlen : feed.length ≠ 0 := fun h => hne (List.length_eq_zero.mp h)
    simp only [printed, hlen, if_false, List.append_nil, List.cons_append, List.nil_append,
      List.mem_cons, List.mem_append, List.mem_singleton, List.not_mem_nil, or_false] at hmem
    rcases hmem with h | h | h
    · exact header_ne_noComments _ h.symm
    · obtain ⟨j, c, hj⟩ := mem_blocksFrom W _ 0 feed _ h
      exact block_ne_noComments W _ j c hj.symm
    · exact footer_ne_noComments W _ h.symm

/-- A run on the pull request without comments (C4, first part) and the run on
`[a@T0]`, `[b@T0+1]` (C4, second part). -/
theorem no_comments_notice_witness :
    ((prComments sample.quiet).comments = some [] ∧
      (prComments sample.quiet).stdout
        = [header 7, "No Comments.\n\n", footer sample.quiet "u/7"] ∧
      (prComments sample.quiet).stdout.count "No Comments.\n\n" = 1 ∧
      ∀ w k c, block sample.quiet w k c ∉ (prComments sample.quiet).stdout) ∧
    "No Comments.\n\n" ∉ (prComments sample.twoComments).stdout :=
  ⟨(no_comments_notice sample.quiet (fetch sample.quiet).1
      { prPayload := sample.pr, prComments := [], issueComments := [] } rfl).1 rfl rfl,
   (no_comments_notice sample.twoComments (fetch sample.twoComments).1
      { prPayload := sample.pr, prComments := [sample.record "a" "first" 0],
        issueComments := [sample.record "b" "second" 1] } rfl).2
      [comment.ofAPI (sample.record "a" "first" 0) { Login := "a" },
       comment.ofAPI (sample.record "b" "second" 1) { Login := "b" }]
      (by decide) (by decide)⟩

/-- C5, the claim as stated fails: the run on a pull request without comments
succeeds and prints three chunks, the middle one being the notice, so its
output is not the header followed by the (zero) blocks and the footer. -/
theorem printed_output_counterexample :
    (prComments sample.quiet).result = .returned none ∧
    (prComments sample.quiet).comments = some [] ∧
    (prComments sample.quiet).stdout
      = ["Pull Request #7 Comments\n\n", "No Comments.\n\n", "Pull Request URL: u/7\n"] ∧
    ¬ ∃ (n : Int) (url : String), (prComments sample.quiet).stdout
        = [header n] ++ blocksFrom sample.quiet (termWidth sample.quiet.GetSize) 0 []
            ++ [footer sample.quiet url] := by
  refine ⟨by decide, by decide, by decide, ?_⟩
  rintro ⟨n, url, h⟩
  have hlen := congrArg List.length h
  have h3 : (prComments sample.quiet).stdout.length = 3 := by decide
  rw [h3] at hlen
  simp [blocksFrom] at hlen

/-- C5 as amended: on every successful run the output is, in this order, the
header with the pull request number, the "No Comments." notice when the feed
is empty (and only then), one block per comment of the feed in feed order, and
the footer with the pull request URL; the k-th block holds the k-th comment's
author login, relative time, URL and body rendered at the chosen width with
left pad 0. -/
theorem printed_output (W : World) (hs : (prComments W).result = .returned none) :
    ∃ (calls : List Call) (f : Fetched) (feed : List comment) (blocks : List String),
      fetch W = (calls, .ok f) ∧
      (prComments W).comments = some feed ∧
      (prComments W).stdout
        = ["Pull Request #" ++ toString f.prPayload.CurrentPR.Number ++ " Comments\n\n"]
          ++ (if feed = [] then ["No Comments.\n\n"] else [])
          ++ blocks
          ++ ["Pull Request URL: " ++ W.Blue f.prPayload.CurrentPR.URL ++ "\n"] ∧
      blocks.length = feed.length ∧
      ∀ (k : Nat) (hk : k < feed.length) (hb : k < blocks.length),
        blocks.get ⟨k, hb⟩
          = "@" ++ W.Bold (feed.get ⟨k, hk⟩).User.Login ++ " "
              ++ W.Gray (W.humanizeTime k (feed.get ⟨k, hk⟩).CreatedAt) ++ " "
              ++ W.Blue (feed.get ⟨k, hk⟩).URL ++ "\n"
              ++ W.Render (feed.get ⟨k, hk⟩).Body (termWidth W.GetSize) 0 ++ "\n" ++ "\n" := by
  obtain ⟨calls, f, cs, hf, hc⟩ := prComments_success W hs
  refine ⟨calls, f, sort.SliceStable createdBefore cs,
    blocksFrom W (termWidth W.GetSize) 0 (sort.SliceStable createdBefore cs), hf, ?_, ?_,
    blocksFrom_length _ _ _ _, ?_⟩
  · rw [prComments_of_collect W calls f cs hf hc]
  · rw [prComments_of_collect W calls f cs hf hc]
    simp only [printed, header, footer, noComments, List.length_eq_zero]
  · intro k hk hb
    rw [blocksFrom_get W _ 0 _ k hk hb, Nat.zero_add]
    rfl

/-- The run on review comments `[a@T0]` and issue comments `[b@T0+1]`: the
blocks for a then b, followed by the pull request URL line. -/
theorem printed_output_witness :
    (prComments sample.twoComments).result = .returned none ∧
    (prComments sample.twoComments).stdout
      = ["Pull Request #7 Comments\n\n", "@a now u/a\nfirst (120,0)\n\n",
         "@b now u/b\nsecond (120,0)\n\n", "Pull Request URL: u/7\n"] ∧
    ∃ (calls : List Call) (f : Fetched) (feed : List comment) (blocks : List String),
      fetch sample.twoComments = (calls, .ok f) ∧
      (prComments sample.twoComments).comments = some feed ∧
      (prComments sample.twoComments).stdout
        = ["Pull Request #" ++ toString f.prPayload.CurrentPR.Number ++ " Comments\n\n"]
          ++ (if feed = [] then ["No Comments.\n\n"] else [])
          ++ blocks
          ++ ["Pull Request URL: " ++ sample.twoComments.Blue f.prPayload.CurrentPR.URL
              ++ "\n"] ∧
      blocks.length = feed.length ∧
      ∀ (k : Nat) (hk : k < feed.length) (hb : k < blocks.length),
        blocks.get ⟨k, hb⟩
          = "@" ++ sample.twoComments.Bold (feed.get ⟨k, hk⟩).User.Login ++ " "
              ++ sample.twoComments.Gray
                  (sample.twoComments.humanizeTime k (feed.get ⟨k, hk⟩).CreatedAt) ++ " "
              ++ sample.twoComments.Blue (feed.get ⟨k, hk⟩).URL ++ "\n"
              ++ sample.twoComments.Render (feed.get ⟨k, hk⟩).Body
                  (termWidth sample.twoComments.GetSize) 0 ++ "\n" ++ "\n" :=
  ⟨by decide, by decide, printed_output sample.twoComments (by decide)⟩

/-! ## The terminal width -/

/-- A run that builds the feed probes the terminal, calls the renderer once
per comment with the width of lines 92-95 and left pad 0, prints, and returns
nil. -/
theorem run_of_feed (W : World) (calls : List Call) (f : Fetched) (feed : List comment)
    (hf : fetch W = (calls, .ok f)) (hfeed : (prComments W).comments = some feed) :
    (prComments W).result = .returned none ∧
    (prComments W).calls
      = calls ++ [.GetSize] ++ feed.map (fun c => Call.Render c.Body (termWidth W.GetSize) 0) ∧
    (∀ b w' p, Call.Render b w' p ∈ (prComments W).calls → w' = termWidth W.GetSize) ∧
    (prComments W).stdout = printed W (termWidth W.GetSize) f.prPayload.CurrentPR feed := by
  obtain ⟨calls', f', cs, hf', hc, hcs⟩ := prComments_feed W feed hfeed
  rw [hf] at hf'
  simp only [Prod.mk.injEq, Except.ok.injEq] at hf'
  obtain ⟨hcalls, hff⟩ := hf'
  subst hcalls hff
  have hno : ∀ b w' p, Call.Render b w' p ∉ calls := by
    intro b w' p hmem
    have hmem' : Call.Render b w' p ∈ (fetch W).1 := by rw [hf]; exact hmem
    exact (fetch_calls W _ hmem').2 b w' p rfl
  rw [prComments_of_collect W calls f cs hf hc, ← hcs]
  refine ⟨rfl, rfl, ?_, rfl⟩
  intro b w' p hmem
  simp only [List.mem_append, List.mem_singleton, List.mem_map] at hmem
  rcases hmem with (h | h) | ⟨c, _, h⟩
  · exact absurd h (hno b w' p)
  · simp at h
  · simp only [Call.Render.injEq] at h
    exact h.2.1.symm

/-- C6: when the terminal probe fails the run still returns nil, and every
call of the markdown renderer is given width 80; when the probe succeeds with
`w` columns every call is given width `w`.  In both cases the renderer is called
once per comment of the feed, with that comment's body and left pad 0. -/
theorem width_fallback (W : World) (calls : List Call) (f : Fetched) (feed : List comment)
    (hf : fetch W = (calls, .ok f)) (hfeed : (prComments W).comments = some feed) :
    (∀ (w h : Int) (e : GoError), W.GetSize = (w, h, some e) →
      (prComments W).result = .returned none ∧
      (prComments W).calls
        = calls ++ [.GetSize] ++ feed.map (fun c => Call.Render c.Body 80 0) ∧
      (∀ b w' p, Call.Render b w' p ∈ (prComments W).calls → w' = 80) ∧
      (prComments W).stdout = printed W 80 f.prPayload.CurrentPR feed) ∧
    (∀ (w h : Int), W.GetSize = (w, h, none) →
      (prComments W).result = .returned none ∧
      (prComments W).calls
        = calls ++ [.GetSize] ++ feed.map (fun c => Call.Render c.Body w 0) ∧
      (∀ b w' p, Call.Render b w' p ∈ (prComments W).calls → w' = w) ∧
      (prComments W).stdout = printed W w f.prPayload.CurrentPR feed) := by
  have key := run_of_feed W calls f feed hf hfeed
  constructor
  · intro w h e hsize
    have hw : termWidth W.GetSize = 80 := by simp [termWidth, hsize]
    rw [hw] at key
    exact key
  · intro w h hsize
    have hw : termWidth W.GetSize = w := by simp [termWidth, hsize]
    rw [hw] at key
    exact key

/-- A failing probe gives width 80 and a nil result; a probe reporting 120
columns gives width 120. -/
theorem width_fallback_witness :
    ((prComments sample.noTerminal).result = .returned none ∧
      (prComments sample.noTerminal).calls
        = (fetch sample.noTerminal).1 ++ [.GetSize] ++ [Call.Render "first" 80 0] ∧
      (∀ b w' p, Call.Render b w' p ∈ (prComments sample.noTerminal).calls → w' = 80) ∧
      (prComments sample.noTerminal).stdout
        = printed sample.noTerminal 80 sample.pr.CurrentPR
            [comment.ofAPI (sample.record "a" "first" 0) { Login := "a" }]) ∧
    ((prComments sample.twoComments).result = .returned none ∧
      (prComments sample.twoComments).calls
        = (fetch sample.twoComments).1 ++ [.GetSize]
            ++ [Call.Render "first" 120 0, Call.Render "second" 120 0] ∧
      (∀ b w' p, Call.Render b w' p ∈ (prComments sample.twoComments).calls → w' = 120) ∧
      (prComments sample.twoComments).stdout
        = printed sample.twoComments 120 sample.pr.CurrentPR
            [comment.ofAPI (sample.record "a" "first" 0) { Login := "a" },
             comment.ofAPI (sample.record "b" "second" 1) { Login := "b" }]) :=
  ⟨(width_fallback sample.noTerminal (fetch sample.noTerminal).1
      { prPayload := sample.pr, prComments := [sample.record "a" "first" 0],
        issueComments := [] }
      [comment.ofAPI (sample.record "a" "first" 0) { Login := "a" }] rfl (by decide)).1
      (-1) (-1) "inappropriate ioctl for device" rfl,
   (width_fallback sample.twoComments (fetch sample.twoComments).1
      { prPayload := sample.pr, prComments := [sample.record "a" "first" 0],
        issueComments := [sample.record "b" "second" 1] }
      [comment.ofAPI (sample.record "a" "first" 0) { Login := "a" },
       comment.ofAPI (sample.record "b" "second" 1) { Login := "b" }] rfl (by decide)).2
      120 40 rfl⟩

/-- C10, the claim as stated fails: a probe that succeeds and reports 0 columns
makes the run call the renderer with width 0. -/
theorem width_positive_counterexample :
    sample.zeroColumns.GetSize = (0, 0, none) ∧
    (prComments sample.zeroColumns).result = .returned none ∧
    Call.Render "first" 0 0 ∈ (prComments sample.zeroColumns).calls ∧
    (prComments sample.zeroColumns).stdout
      = ["Pull Request #7 Comments\n\n", "@a now u/a\nfirst (0,0)\n\n",
         "Pull Request URL: u/7\n"] ∧
    ¬ ∀ b w p, Call.Render b w p ∈ (prComments sample.zeroColumns).calls → 0 < w := by
  refine ⟨rfl, by decide, by decide, by decide, ?_⟩
  intro h
  exact absurd (h "first" 0 0 (by decide)) (by decide)

/-- C10 as amended: the width passed to the renderer is 80 when the terminal
probe fails and the reported column count when it succeeds (one call per feed
comment, after the probe); so it is greater than 0 whenever the probe fails or
reports a positive number of columns. -/
theorem width_positive (W : World) (calls : List Call) (f : Fetched) (feed : List comment)
    (hf : fetch W = (calls, .ok f)) (hfeed : (prComments W).comments = some feed) :
    (∀ (w h : Int) (e : GoError), W.GetSize = (w, h, some e) →
      (prComments W).calls
        = calls ++ [.GetSize] ++ feed.map (fun c => Call.Render c.Body 80 0) ∧
      ∀ b w' p, Call.Render b w' p ∈ (prComments W).calls → w' = 80 ∧ 0 < w') ∧
    (∀ (w h : Int), W.GetSize = (w, h, none) →
      (prComments W).calls
        = calls ++ [.GetSize] ++ feed.map (fun c => Call.Render c.Body w 0) ∧
      ∀ b w' p, Call.Render b w' p ∈ (prComments W).calls → w' = w ∧ (0 < w → 0 < w')) ∧
    ((∀ w h, W.GetSize = (w, h, none) → 0 < w) →
      ∀ b w' p, Call.Render b w' p ∈ (prComments W).calls → 0 < w') := by
  have key := run_of_feed W calls f feed hf hfeed
  refine ⟨?_, ?_, ?_⟩
  · intro w h e hsize
    have hw : termWidth W.GetSize = 80 := by simp [termWidth, hsize]
    rw [hw] at key
    refine ⟨key.2.1, fun b w' p hmem => ?_⟩
    have h80 := key.2.2.1 b w' p hmem
    exact ⟨h80, by rw [h80]; decide⟩
  · intro w h hsize
    have hw : termWidth W.GetSize = w := by simp [termWidth, hsize]
    rw [hw] at key
    refine ⟨key.2.1, fun b w' p hmem => ?_⟩
    have hww := key.2.2.1 b w' p hmem
    exact ⟨hww, fun hpos => by rw [hww]; exact hpos⟩
  · intro hsize b w' p hmem
    rw [key.2.2.1 b w' p hmem]
    rcases hg : W.GetSize with ⟨w0, h0, e0⟩
    cases e0 with
    | none =>
      have hw : termWidth (w0, h0, none) = w0 := by simp [termWidth]
      rw [hw]
      exact hsize w0 h0 hg
    | some e =>
      have hw : termWidth (w0, h0, some e) = 80 := by simp [termWidth]
      rw [hw]
      decide

/-- A failing probe gives width 80 and a probe reporting 120 columns gives
width 120, both positive. -/
theorem width_positive_witness :
    ((prComments sample.noTerminal).calls
        = (fetch sample.noTerminal).1 ++ [.GetSize] ++ [Call.Render "first" 80 0] ∧
      ∀ b w' p, Call.Render b w' p ∈ (prComments sample.noTerminal).calls →
        w' = 80 ∧ 0 < w') ∧
    ((prComments sample.twoComments).calls
        = (fetch sample.twoComments).1 ++ [.GetSize]
            ++ [Call.Render "first" 120 0, Call.Render "second" 120 0] ∧
      ∀ b w' p, Call.Render b w' p ∈ (prComments sample.twoComments).calls →
        w' = 120 ∧ ((0 : Int) < 120 → 0 < w')) ∧
    (∀ b w' p, Call.Render b w' p ∈ (prComments sample.twoComments).calls → 0 < w') :=
  ⟨(width_positive sample.noTerminal (fetch sample.noTerminal).1
      { prPayload := sample.pr, prComments := [sample.record "a" "first" 0],
        issueComments := [] }
      [comment.ofAPI (sample.record "a" "first" 0) { Login := "a" }] rfl (by decide)).1
      (-1) (-1) "inappropriate ioctl for device" rfl,
   (width_positive sample.twoComments (fetch sample.twoComments).1
      { prPayload := sample.pr, prComments := [sample.record "a" "first" 0],
        issueComments := [sample.record "b" "second" 1] }
      [comment.ofAPI (sample.record "a" "first" 0) { Login := "a" },
       comment.ofAPI (sample.record "b" "second" 1) { Login := "b" }] rfl (by decide)).2.1
      120 40 rfl,
   (width_positive sample.twoComments (fetch sample.twoComments).1
      { prPayload := sample.pr, prComments := [sample.record "a" "first" 0],
        issueComments := [sample.record "b" "second" 1] }
      [comment.ofAPI (sample.record "a" "first" 0) { Login := "a" },
       comment.ofAPI (sample.record "b" "second" 1) { Login := "b" }] rfl (by decide)).2.2
      (fun w h hg => by
        simp only [sample.twoComments, sample.world, Prod.mk.injEq] at hg
        omega)⟩

/-! ## Failures -/

/-- C7: a run that returns an error has printed nothing and has built no feed:
the error is the one the resolution and fetch steps of lines 33-64 end with,
before the slice `comments` exists. -/
theorem error_prints_nothing (W : World) (e : GoError)
    (he : (prComments W).result = .returned (some e)) :
    (prComments W).stdout = [] ∧ (prComments W).comments = none ∧
      (fetch W).2 = .error e ∧ (prComments W).calls = (fetch W).1 ∧
      Call.GetSize ∉ (prComments W).calls ∧
      ∀ b w p, Call.Render b w p ∉ (prComments W).calls := by
  obtain ⟨calls, hf⟩ := prComments_failure W e he
  have hrun := prComments_of_fetch_error W calls e hf
  have hcalls : (prComments W).calls = (fetch W).1 := by rw [hrun, hf]
  refine ⟨by rw [hrun], by rw [hrun], by rw [hf], hcalls, ?_, ?_⟩
  · intro hmem
    rw [hcalls] at hmem
    exact (fetch_calls W _ hmem).1 rfl
  · intro b w p hmem
    rw [hcalls] at hmem
    exact (fetch_calls W _ hmem).2 b w p rfl

/-- A failing issue-comment fetch, after a review-comment fetch that returned a
comment: nothing printed, no feed. -/
theorem error_prints_nothing_witness :
    (prComments sample.issuesDown).result
      = .returned (some "failed to get issues comments: HTTP 502") ∧
    ((prComments sample.issuesDown).stdout = [] ∧
      (prComments sample.issuesDown).comments = none ∧
      (fetch sample.issuesDown).2 = .error "failed to get issues comments: HTTP 502" ∧
      (prComments sample.issuesDown).calls = (fetch sample.issuesDown).1 ∧
      Call.GetSize ∉ (prComments sample.issuesDown).calls ∧
      ∀ b w p, Call.Render b w p ∉ (prComments sample.issuesDown).calls) :=
  ⟨by decide,
   error_prints_nothing sample.issuesDown "failed to get issues comments: HTTP 502"
     (by decide)⟩

/-- C8, the claim as stated fails: when the selector fails with "git: not on any
branch" the run goes on to the lookup and the two fetches, prints the feed and
returns nil. -/
theorem selector_failure_counterexample :
    sample.detached.prSelectorForCurrentBranch { fullName := "o/r" }
      = (0, "", some "git: not on any branch") ∧
    (prComments sample.detached).result = .returned none ∧
    (prComments sample.detached).calls
      = [.contextForCommand, .apiClientForContext, .determineBaseRepo,
         .prSelectorForCurrentBranch, .PullRequests 0 "" "@me", .PullRequestComments 7,
         .IssueComments 7, .GetSize, .Render "first" 120 0] ∧
    (prComments sample.detached).stdout
      = ["Pull Request #7 Comments\n\n", "@a now u/a\nfirst (120,0)\n\n",
         "Pull Request URL: u/7\n"] :=
  ⟨rfl, by decide, by decide, by decide⟩

/-- C8 as amended: a selector failure whose message is not "git: not on any
branch" is fatal: the run returns the error "could not query for pull request
for current branch: " followed by the message, makes no call after the
selector, and prints nothing.  A failure whose message is "git: not on any
branch" is ignored: the run is the run in which the selector returned the same
number and head ref with a nil error; it goes on with the lookup of that number
and head ref for "@me", returns the lookup's error when the lookup fails and
passes the review-comment fetch the pull request found when it succeeds. -/
theorem selector_failure_fatal (W : World) (apiClient : api.Client) (baseRepo : Repo)
    (n : Int) (ref : String) (e : GoError)
    (hclient : W.apiClientForContext = .ok apiClient)
    (hrepo : W.determineBaseRepo apiClient = .ok baseRepo)
    (hsel : W.prSelectorForCurrentBranch baseRepo = (n, ref, some e)) :
    (e ≠ "git: not on any branch" →
      (prComments W).result
        = .returned (some ("could not query for pull request for current branch: " ++ e)) ∧
      (prComments W).calls
        = [.contextForCommand, .apiClientForContext, .determineBaseRepo,
           .prSelectorForCurrentBranch] ∧
      (prComments W).stdout = [] ∧ (prComments W).comments = none) ∧
    (e = "git: not on any branch" →
      prComments W
        = prComments { W with prSelectorForCurrentBranch := fun _ => (n, ref, none) } ∧
      List.IsPrefix [.contextForCommand, .apiClientForContext, .determineBaseRepo,
          .prSelectorForCurrentBranch, .PullRequests n ref "@me"] (prComments W).calls ∧
      (∀ err : GoError, W.PullRequests apiClient baseRepo n ref "@me" = .error err →
        (prComments W).result = .returned (some err) ∧
        (prComments W).calls
          = [.contextForCommand, .apiClientForContext, .determineBaseRepo,
             .prSelectorForCurrentBranch, .PullRequests n ref "@me"]) ∧
      (∀ p : api.PullRequestsPayload,
        W.PullRequests apiClient baseRepo n ref "@me" = .ok p →
        resolve W
          = ([.contextForCommand, .apiClientForContext, .determineBaseRepo,
              .prSelectorForCurrentBranch, .PullRequests n ref "@me"],
             .ok { apiClient := apiClient, baseRepo := baseRepo, prPayload := p }) ∧
        Call.PullRequestComments p.CurrentPR.Number ∈ (prComments W).calls)) := by
  constructor
  · intro hne
    have hres : resolve W
        = ([.contextForCommand, .apiClientForContext, .determineBaseRepo,
            .prSelectorForCurrentBranch],
           .error ("could not query for pull request for current branch: " ++ e)) := by
      simp [resolve, hclient, hrepo, hsel, hne]
    have hf : fetch W
        = ([.contextForCommand, .apiClientForContext, .determineBaseRepo,
            .prSelectorForCurrentBranch],
           .error ("could not query for pull request for current branch: " ++ e)) := by
      simp only [fetch, hres]
    rw [prComments_of_fetch_error W _ _ hf]
    exact ⟨rfl, rfl, rfl, rfl⟩
  · intro he
    subst he
    have hres : resolve W
        = (match W.PullRequests apiClient baseRepo n ref "@me" with
           | .error err =>
             ([.contextForCommand, .apiClientForContext, .determineBaseRepo,
               .prSelectorForCurrentBranch, .PullRequests n ref "@me"], .error err)
           | .ok p =>
             ([.contextForCommand, .apiClientForContext, .determineBaseRepo,
               .prSelectorForCurrentBranch, .PullRequests n ref "@me"],
              .ok { apiClient := apiClient, baseRepo := baseRepo, prPayload := p })) := by
      simp [resolve, hclient, hrepo, hsel]
    have hres1 : (resolve W).1
        = [.contextForCommand, .apiClientForContext, .determineBaseRepo,
           .prSelectorForCurrentBranch, .PullRequests n ref "@me"] := by
      rw [hres]
      cases W.PullRequests apiClient baseRepo n ref "@me" <;> rfl
    have hsame : resolve { W with prSelectorForCurrentBranch := fun _ => (n, ref, none) }
        = resolve W := by
      rw [hres]
      simp [resolve, hclient, hrepo]
    refine ⟨?_, ?_, ?_, ?_⟩
    · simp only [prComments, fetch, hsame, printed_selector]
    · rw [← hres1]
      exact (resolve_prefix_fetch W).trans (fetch_prefix_calls W)
    · intro err herr
      rw [herr] at hres
      have hf : fetch W
          = ([.contextForCommand, .apiClientForContext, .determineBaseRepo,
              .prSelectorForCurrentBranch, .PullRequests n ref "@me"], .error err) := by
        simp only [fetch, hres]
      rw [prComments_of_fetch_error W _ _ hf]
      exact ⟨rfl, rfl⟩
    · intro p hp
      rw [hp] at hres
      refine ⟨hres, ?_⟩
      have hsub : List.IsPrefix ([.contextForCommand, .apiClientForContext, .determineBaseRepo,
          .prSelectorForCurrentBranch, .PullRequests n ref "@me"]
            ++ [Call.PullRequestComments p.CurrentPR.Number]) (fetch W).1 := by
        simp only [fetch, hres]
        repeat' split
        all_goals simp [List.prefix_append]
      exact ((hsub.trans (fetch_prefix_calls W)).subset) (by simp)

/-- A selector that fails with "no remote" (fatal) and one that fails with
"git: not on any branch" (the run goes on as with a nil error). -/
theorem selector_failure_fatal_witness :
    ((prComments sample.noRemote).result
        = .returned (some ("could not query for pull request for current branch: "
            ++ "no remote")) ∧
      (prComments sample.noRemote).calls
        = [.contextForCommand, .apiClientForContext, .determineBaseRepo,
           .prSelectorForCurrentBranch] ∧
      (prComments sample.noRemote).stdout = [] ∧
      (prComments sample.noRemote).comments = none) ∧
    (prComments sample.detached
        = prComments
            { sample.detached with prSelectorForCurrentBranch := fun _ => (0, "", none) } ∧
      List.IsPrefix [.contextForCommand, .apiClientForContext, .determineBaseRepo,
          .prSelectorForCurrentBranch, .PullRequests 0 "" "@me"]
        (prComments sample.detached).calls ∧
      resolve sample.detached
        = ([.contextForCommand, .apiClientForContext, .determineBaseRepo,
            .prSelectorForCurrentBranch, .PullRequests 0 "" "@me"],
           .ok { apiClient := { id := 1 }, baseRepo := { fullName := "o/r" },
                 prPayload := sample.pr }) ∧
      Call.PullRequestComments sample.pr.CurrentPR.Number
        ∈ (prComments sample.detached).calls) :=
  ⟨(selector_failure_fatal sample.noRemote { id := 1 } { fullName := "o/r" } 0 ""
      "no remote" rfl rfl rfl).1 (by decide),
   ((selector_failure_fatal sample.detached { id := 1 } { fullName := "o/r" } 0 ""
      "git: not on any branch" rfl rfl rfl).2 rfl).1,
   ((selector_failure_fatal sample.detached { id := 1 } { fullName := "o/r" } 0 ""
      "git: not on any branch" rfl rfl rfl).2 rfl).2.1,
   (((selector_failure_fatal sample.detached { id := 1 } { fullName := "o/r" } 0 ""
      "git: not on any branch" rfl rfl rfl).2 rfl).2.2.2 sample.pr rfl).1,
   (((selector_failure_fatal sample.detached { id := 1 } { fullName := "o/r" } 0 ""
      "git: not on any branch" rfl rfl rfl).2 rfl).2.2.2 sample.pr rfl).2⟩

/-- C9: once the pull request is resolved, a failing review-comment fetch makes
the run return "failed to get PR review comments: " followed by the fetch
error's message, without any issue-comment fetch; a failing issue-comment fetch
after a successful review-comment fetch makes it return "failed to get issues
comments: " followed by the message; and no message of the first form is a
message of the second form. -/
theorem fetch_failure_message (W : World) (calls : List Call) (r : Resolved)
    (hr : resolve W = (calls, .ok r)) :
    (∀ e : GoError,
      W.PullRequestComments r.apiClient r.baseRepo r.prPayload.CurrentPR.Number = .error e →
      (prComments W).result = .returned (some ("failed to get PR review comments: " ++ e)) ∧
      (prComments W).calls = calls ++ [.PullRequestComments r.prPayload.CurrentPR.Number] ∧
      ∀ k, Call.IssueComments k ∉ (prComments W).calls) ∧
    (∀ (rs : List api.Comment) (e : GoError),
      W.PullRequestComments r.apiClient r.baseRepo r.prPayload.CurrentPR.Number = .ok rs →
      W.IssueComments r.apiClient r.baseRepo r.prPayload.CurrentPR.Number = .error e →
      (prComments W).result = .returned (some ("failed to get issues comments: " ++ e)) ∧
      (prComments W).calls
        = calls ++ [.PullRequestComments r.prPayload.CurrentPR.Number,
                    .IssueComments r.prPayload.CurrentPR.Number]) ∧
    (∀ e e' : GoError,
      "failed to get PR review comments: " ++ e ≠ "failed to get issues comments: " ++ e') := by
  refine ⟨?_, ?_, ?_⟩
  · intro e he
    have hf : fetch W = (calls ++ [.PullRequestComments r.prPayload.CurrentPR.Number],
        .error ("failed to get PR review comments: " ++ e)) := by
      simp only [fetch, hr, he]
    rw [prComments_of_fetch_error W _ _ hf]
    refine ⟨rfl, rfl, ?_⟩
    intro k hmem
    simp only [List.mem_append, List.mem_singleton] at hmem
    rcases hmem with h | h
    · have h' : Call.IssueComments k ∈ (resolve W).1 := by rw [hr]; exact h
      rcases resolve_calls W _ h' with h | h | h | h | ⟨_, _, _, h⟩ <;> simp at h
    · simp at h
  · intro rs e hrs he
    have hf : fetch W = (calls ++ [.PullRequestComments r.prPayload.CurrentPR.Number,
        .IssueComments r.prPayload.CurrentPR.Number],
        .error ("failed to get issues comments: " ++ e)) := by
      simp only [fetch, hr, hrs, he]
    rw [prComments_of_fetch_error W _ _ hf]
    exact ⟨rfl, rfl⟩
  · intro e e' h
    have := congrArg String.data h
    simp at this

/-- A failing review-comment fetch and a failing issue-comment fetch. -/
theorem fetch_failure_message_witness :
    ((prComments sample.reviewsDown).result
        = .returned (some ("failed to get PR review comments: " ++ "HTTP 502")) ∧
      (prComments sample.reviewsDown).calls
        = (resolve sample.reviewsDown).1 ++ [.PullRequestComments 7] ∧
      ∀ k, Call.IssueComments k ∉ (prComments sample.reviewsDown).calls) ∧
    ((prComments sample.issuesDown).result
        = .returned (some ("failed to get issues comments: " ++ "HTTP 502")) ∧
      (prComments sample.issuesDown).calls
        = (resolve sample.issuesDown).1 ++ [.PullRequestComments 7, .IssueComments 7]) :=
  ⟨(fetch_failure_message sample.reviewsDown (resolve sample.reviewsDown).1
      { apiClient := { id := 1 }, baseRepo := { fullName := "o/r" }, prPayload := sample.pr }
      rfl).1 "HTTP 502" rfl,
   (fetch_failure_message sample.issuesDown (resolve sample.issuesDown).1
      { apiClient := { id := 1 }, baseRepo := { fullName := "o/r" }, prPayload := sample.pr }
      rfl).2.1 [sample.record "a" "first" 0] "HTTP 502" rfl rfl⟩

end PrComments
